import Mathlib

/-!
Verification of the namesigns geometry and layout core.

The definitions below are shallow embeddings of the Python sources:
`namesign.py` (text layout, border-frame construction and two-piece solid
composition) and `namesign_gui.py` (the analytic constant-distance offset of
the concave plate outline).  All arithmetic that the modelled code performs
on rational inputs is exact, so the layout side is embedded over the rational
numbers; the offset construction uses square roots and is embedded over the
real numbers.  CadQuery solids are modelled as sets of points in three
dimensional space, with boolean operations as set operations; results of
external library calls (glyph rendering, offset2D) enter the model as
explicit parameters at the call boundary.
-/

namespace Namesign

/-- Approximate average character width / font size (module constant of
namesign.py). -/
def CHAR_WIDTH_RATIO : ℚ := 11 / 20

/-- A run of text with uniform styling (class StyledRun of namesign.py). -/
structure StyledRun where
  text : String
  bold : Bool := false
  italic : Bool := false
  underline : Bool := false

/-- Parameters for name sign generation (class SignParams of namesign.py),
with the numeric fields over the rationals. -/
structure SignParams where
  lines : List String := ["Her bor", "Ola Nordmann"]
  styled_lines : Option (List (List StyledRun)) := none
  sizes : Option (List ℚ) := none
  width : ℚ := 180
  height : ℚ := 120
  thickness : ℚ := 3
  text_depth : ℚ := 3 / 5
  font : String := "Arial"
  bold : Bool := false
  italic : Bool := false
  underline : Bool := false
  border_style : String := "concave"
  corner_radius : ℚ := 12
  border_offset : ℚ := 6
  border_width : ℚ := 2
  line_spacing : ℚ := 13 / 10
  output : String := "namesign"

/-- Python str.strip(): remove leading and trailing whitespace.  Implemented
structurally over the character list so that it evaluates inside proofs. -/
def strip (s : String) : String :=
  String.mk (((s.data.dropWhile (fun c => c.isWhitespace)).reverse.dropWhile
    (fun c => c.isWhitespace)).reverse)

/-- Plain text for each line, from styled_lines if available
(function _get_line_texts of namesign.py). -/
def get_line_texts (p : SignParams) : List String :=
  match p.styled_lines with
  | some sls => sls.map (fun runs => String.join (runs.map (fun r => r.text)))
  | none => p.lines

/-- The padding inside the border used by auto sizing
(local computation in auto_font_sizes of namesign.py). -/
def sign_padding (p : SignParams) : ℚ :=
  if p.border_style ≠ "none" ∧ 0 < p.border_width then
    p.border_offset + p.border_width + 3
  else
    max (p.corner_radius * (1 / 2)) 4

/-- Available horizontal space inside the border (auto_font_sizes). -/
def available_w (p : SignParams) : ℚ := p.width - 2 * sign_padding p

/-- Available vertical space inside the border (auto_font_sizes). -/
def available_h (p : SignParams) : ℚ := p.height - 2 * sign_padding p

/-- The non-empty (after stripping) text lines (auto_font_sizes). -/
def non_empty_lines (p : SignParams) : List String :=
  (get_line_texts p).filter (fun l => strip l ≠ "")

/-- Number of non-empty text lines (auto_font_sizes). -/
def n_text (p : SignParams) : ℕ := (non_empty_lines p).length

/-- Denominator of the height-derived base size:
1 + (n_text - 1) * line_spacing (auto_font_sizes). -/
def size_denom (p : SignParams) : ℚ :=
  1 + ((n_text p : ℚ) - 1) * p.line_spacing

/-- Base font size derived from the available height (auto_font_sizes). -/
def base_size (p : SignParams) : ℚ := available_h p / size_denom p

/-- Width-derived cap for one line:
available_w / (len(text) * CHAR_WIDTH_RATIO) (auto_font_sizes). -/
def width_cap (aw : ℚ) (l : String) : ℚ :=
  aw / (((strip l).length : ℚ) * CHAR_WIDTH_RATIO)

/-- One step of the capping loop of auto_font_sizes: blank lines are skipped,
every other line lowers the running size to its width cap. -/
def cap_step (aw : ℚ) (u : ℚ) (line : String) : ℚ :=
  if strip line = "" then u else min u (width_cap aw line)

/-- The uniform size computed by the loop of auto_font_sizes. -/
def uniform_size (p : SignParams) : ℚ :=
  (get_line_texts p).foldl (cap_step (available_w p)) (base_size p)

/-- Automatic font sizes, uniform across all lines
(function auto_font_sizes of namesign.py). -/
def auto_font_sizes (p : SignParams) : List ℚ :=
  if (get_line_texts p).length = 0 then []
  else if n_text p = 0 then List.replicate (get_line_texts p).length 10
  else if available_w p ≤ 0 ∨ available_h p ≤ 0 then
    List.replicate (get_line_texts p).length 5
  else
    List.replicate (get_line_texts p).length (uniform_size p)

/-- Modelled from the spec:
a font size u fits a configuration when (a) the stack of the n_text non-empty
lines, spaced at u * line_spacing between centers, fits the available vertical
space, and (b) every non-empty line's estimated width (character count of the
stripped line times CHAR_WIDTH_RATIO times u) fits the available horizontal
space.  This is the specification-side predicate that auto_font_sizes is
compared against. -/
def fitsSpec (p : SignParams) (u : ℚ) : Prop :=
  u * size_denom p ≤ available_h p ∧
  ∀ l ∈ get_line_texts p, strip l ≠ "" →
    (((strip l).length : ℚ) * CHAR_WIDTH_RATIO) * u ≤ available_w p

/-- Gaps between consecutive line centers:
(size_i / 2 + size_{i+1} / 2) * line_spacing
(function _calc_line_positions of namesign.py). -/
def calc_gaps : List (String × ℚ) → ℚ → List ℚ
  | a :: b :: rest, ls => (a.2 / 2 + b.2 / 2) * ls :: calc_gaps (b :: rest) ls
  | _, _ => []

/-- Stacking loop of _calc_line_positions: start at y0, then append
previous minus gap for each gap. -/
def stack_positions (y0 : ℚ) : List ℚ → List ℚ
  | [] => [y0]
  | g :: gs => y0 :: stack_positions (y0 - g) gs

/-- Centered Y positions for text lines
(function _calc_line_positions of namesign.py). -/
def calc_line_positions (line_data : List (String × ℚ)) (line_spacing : ℚ) :
    List ℚ :=
  match line_data with
  | [] => []
  | [_] => [0]
  | _ =>
    let gaps := calc_gaps line_data line_spacing
    stack_positions (gaps.sum / 2) gaps

/-- Per-line size selection of _create_text_solids (namesign.py) and of
PreviewWidget.paintEvent (namesign_gui.py): explicit sizes are used only when
the list is non-empty and its length equals the number of text lines,
otherwise automatic sizing is used. -/
def choose_sizes (p : SignParams) : List ℚ :=
  match p.sizes with
  | some l =>
    if l ≠ [] ∧ l.length = (get_line_texts p).length then l
    else auto_font_sizes p
  | none => auto_font_sizes p

/-- Clamp corner radius to fit within dimensions
(function _clamp_radius of namesign.py). -/
def clamp_radius (r w h : ℚ) : ℚ :=
  max 0 (min r (min (w / 2 - 1 / 10) (h / 2 - 1 / 10)))

/-- A 2D closed outline wire, identified by the data determining its
geometry (the wire builders of namesign.py). -/
inductive Wire where
  | rect (w h : ℚ)
  | concaveWire (w h r : ℚ)
  | roundedWire (w h r : ℚ)
  deriving DecidableEq

/-- Concave plaque outline (function _create_concave_wire of namesign.py):
the radius is clamped, and below the 0.1 threshold the outline degenerates
to the plain rectangle. -/
def create_concave_wire (w h r : ℚ) : Wire :=
  let rc := clamp_radius r w h
  if rc < 1 / 10 then Wire.rect w h else Wire.concaveWire w h rc

/-- Rounded rectangle outline (function _create_rounded_wire of
namesign.py). -/
def create_rounded_wire (w h r : ℚ) : Wire :=
  let rc := clamp_radius r w h
  if rc < 1 / 10 then Wire.rect w h else Wire.roundedWire w h rc

/-- Outline wire selection by border style
(function _create_outline_wire of namesign.py). -/
def create_outline_wire (w h r : ℚ) (style : String) : Wire :=
  if style = "concave" then create_concave_wire w h r
  else if style = "rounded" then create_rounded_wire w h r
  else Wire.rect w h

/-- An extruded outline wire (function _create_outline_solid of
namesign.py). -/
structure WireSolid where
  wire : Wire
  depth : ℚ
  deriving DecidableEq

/-- Extrude an outline into a solid (function _create_outline_solid of
namesign.py). -/
def create_outline_solid (w h r : ℚ) (style : String) (depth : ℚ) :
    WireSolid :=
  ⟨create_outline_wire w h r style, depth⟩

/-- A border frame: either a single outer solid (inner degenerate) or the
outer solid with the inner solid cut away. -/
inductive BorderFrame where
  | single (outer : WireSolid)
  | ring (outer inner : WireSolid)
  deriving DecidableEq

/-- Dimension-based fallback of _create_border_frame (namesign.py): shrink
the dimensions by twice the offset for the outer curve and twice the border
width more for the inner curve, reducing the radius accordingly, floored at
zero. -/
def border_frame_fallback (p : SignParams) : Option BorderFrame :=
  let outer_w := p.width - 2 * p.border_offset
  let outer_h := p.height - 2 * p.border_offset
  let outer_r := max 0 (p.corner_radius - p.border_offset)
  let inner_w := outer_w - 2 * p.border_width
  let inner_h := outer_h - 2 * p.border_width
  let inner_r := max 0 (outer_r - p.border_width)
  if outer_w ≤ 0 ∨ outer_h ≤ 0 then none
  else if inner_w ≤ 0 ∨ inner_h ≤ 0 then
    some (BorderFrame.single
      (create_outline_solid outer_w outer_h outer_r p.border_style p.text_depth))
  else
    some (BorderFrame.ring
      (create_outline_solid outer_w outer_h outer_r p.border_style p.text_depth)
      (create_outline_solid inner_w inner_h inner_r p.border_style p.text_depth))

/-- Border frame construction (function _create_border_frame of namesign.py).
The offset2D computation inside the try block is an external CadQuery call;
its outcome enters the model as the argument primary: some f models the try
block succeeding with frame f, none models offset2D raising an exception, in
which case the dimension-based fallback runs. -/
def create_border_frame (p : SignParams) (primary : Option BorderFrame) :
    Option BorderFrame :=
  if p.border_style = "none" ∨ p.border_width ≤ 0 then none
  else if p.border_offset ≤ 0 ∧ p.border_width ≤ 0 then none
  else
    match primary with
    | some f => some f
    | none => border_frame_fallback p

/-- Points of three dimensional space, modelling CadQuery solids as sets. -/
abbrev P3 : Type := ℝ × ℝ × ℝ

/-- Extrusion of a planar region from z = 0 up to the given depth
(Workplane.extrude). -/
def extrudeSet (S : Set (ℝ × ℝ)) (depth : ℝ) : Set P3 :=
  {q | (q.1, q.2.1) ∈ S ∧ 0 ≤ q.2.2 ∧ q.2.2 ≤ depth}

/-- Closed axis-aligned rectangle of width w and height h centered at
(cx, cy) (Workplane.center followed by Workplane.rect). -/
def rectAt (cx cy w h : ℝ) : Set (ℝ × ℝ) :=
  {q | |q.1 - cx| ≤ w / 2 ∧ |q.2 - cy| ≤ h / 2}

/-- Mirror across the YZ plane (Workplane.mirror "YZ" in generate_sign). -/
def mirrorYZ (S : Set P3) : Set P3 :=
  {q | (-q.1, q.2.1, q.2.2) ∈ S}

/-- Plate solid for border style "none": the plain rectangle extruded
(_create_outline_solid via _create_outline_wire of namesign.py). -/
def outline_solid_none (w h t : ℝ) : Set P3 :=
  extrudeSet (rectAt 0 0 w h) t

/-- Underline rectangle solid for a line of stripped length text_len rendered
at font size font_size and vertical center y (the underline branch of
_create_text_solids in namesign.py): width font_size * len * CHAR_WIDTH_RATIO,
thickness max 0.4 (font_size * 0.06), centered 0.35 * font_size below the
line center, extruded to the text depth. -/
noncomputable def underline_solid (y font_size : ℝ) (text_len : ℕ)
    (depth : ℝ) : Set P3 :=
  extrudeSet
    (rectAt 0 (y - font_size * 0.35)
      (font_size * (text_len : ℝ) * 0.55)
      (max 0.4 (font_size * 0.06)))
    depth

/-- Two-piece composition of generate_sign (namesign.py, lines 504-539): the
black parts list is assembled from the optional text solid and the optional
border solid; if it is empty the result is (none, plate), otherwise the parts
are unioned, mirrored across the YZ plane, and the white piece is the plate
with the mirrored black piece cut away. -/
def generate_sign (plate : Set P3) (text border : Option (Set P3)) :
    Option (Set P3) × Set P3 :=
  let parts :=
    (match text with | some t => [t] | none => []) ++
    (match border with | some b => [b] | none => [])
  match parts with
  | [] => (none, plate)
  | x :: xs =>
    let black := xs.foldl (fun a b => a ∪ b) x
    let black_piece := mirrorYZ black
    (some black_piece, plate \ black_piece)

/-- Result of _build_offset_concave_path (namesign_gui.py): an empty path, an
inset rectangle given by its half extents (the addRect fallbacks), or the
exact concave offset path, recorded by its eight junction points in drawing
order (the arcs between consecutive junctions keep their centers at the plate
corners with radius r + d). -/
inductive OffsetResult where
  | empty
  | rect (hw' hh' : ℝ)
  | path (junctions : List (ℝ × ℝ))

/-- Distance from a plate corner to a junction point along the edge
direction: s = sqrt(R * R - d * d) with R = r + d
(_build_offset_concave_path of namesign_gui.py). -/
noncomputable def offsetS (r d : ℝ) : ℝ :=
  Real.sqrt ((r + d) * (r + d) - d * d)

/-- The eight junction points of the concave offset path, in the order the
path visits them: the straight edges are the pairs (1,2) bottom, (3,4) right,
(5,6) top, (7,8) left (_build_offset_concave_path of namesign_gui.py). -/
def concaveJunctions (hw hh d s : ℝ) : List (ℝ × ℝ) :=
  [(-hw + s, -hh + d), (hw - s, -hh + d),
   (hw - d, -hh + s), (hw - d, hh - s),
   (hw - s, hh - d), (-hw + s, hh - d),
   (-hw + d, hh - s), (-hw + d, -hh + s)]

/-- The four corners of the plate rectangle with half extents hw, hh. -/
def plateCorners (hw hh : ℝ) : List (ℝ × ℝ) :=
  [(-hw, -hh), (hw, -hh), (hw, hh), (-hw, hh)]

/-- The four straight edges of the offset path, as consecutive junction
pairs. -/
def junctionEdges : List (ℝ × ℝ) → List ((ℝ × ℝ) × (ℝ × ℝ))
  | [p1, p2, p3, p4, p5, p6, p7, p8] => [(p1, p2), (p3, p4), (p5, p6), (p7, p8)]
  | _ => []

/-- Euclidean length of a segment given by its two endpoints. -/
noncomputable def segLength (e : (ℝ × ℝ) × (ℝ × ℝ)) : ℝ :=
  Real.sqrt ((e.2.1 - e.1.1) ^ 2 + (e.2.2 - e.1.2) ^ 2)

/-- The concave outline offset inward by d
(function _build_offset_concave_path of namesign_gui.py): straight edges move
inward by d, concave corner arcs keep their centers at the plate corners and
grow their radius to R = r + d; degenerate parameter combinations fall back
to an inset rectangle or an empty path. -/
noncomputable def buildOffsetConcavePath (hw hh r d : ℝ) : OffsetResult :=
  let R := r + d
  if hw ≤ d ∨ hh ≤ d ∨ R ≤ 0 then
    if d < hw ∧ d < hh then OffsetResult.rect (hw - d) (hh - d)
    else OffsetResult.empty
  else if R ≤ d then OffsetResult.rect (hw - d) (hh - d)
  else
    let s := Real.sqrt (R * R - d * d)
    if hw ≤ s ∨ hh ≤ s then OffsetResult.rect (hw - d) (hh - d)
    else OffsetResult.path (concaveJunctions hw hh d s)

/-- Configuration used to exercise the layout theorems: two short lines with
all other parameters left at their defaults. -/
def twoLineParams : SignParams := { lines := ["A", "B"] }

/-- Configuration with two lines and a strongly negative line spacing
(reachable through the command line interface). -/
def negSpacingParams : SignParams := { lines := ["A", "B"], line_spacing := -5 }

/-- Configuration with two short lines used by the size-selection claims. -/
def abcdParams : SignParams := { lines := ["ab", "cd"] }

/-- Configuration carrying an explicit per-line size list matching its two
lines. -/
def explicitSizesParams : SignParams :=
  { lines := ["ab", "cd"], sizes := some [3, 4] }

/-- Default configuration (all SignParams defaults). -/
def defaultParams : SignParams := {}

/-- Default configuration with the border style switched off. -/
def noBorderParams : SignParams := { border_style := "none" }

/-- Plate of the degenerate-configuration counterexample: border style
"none", 40 by 20 by 3 mm. -/
def cexPlate : Set P3 := outline_solid_none 40 20 3

/-- Detail solid of the counterexample configuration lines = ["AA"],
sizes = [1000], underline = true, border style "none", width 40, height 20:
the underline rectangle of the single line (centered at y = 0), which the
black piece contains whatever the external glyph renderer produces; glyph
solids could only enlarge the detail piece further. -/
noncomputable def cexText : Set P3 := underline_solid 0 1000 2 (3 / 5)

/-- Small text solid wholly inside the plate, for the partition witness. -/
def smallText : Set P3 := extrudeSet (rectAt 0 0 2 2) (3 / 5)

/-!
Theorems.  Each claim of the specification review is settled by exactly one
theorem below; auxiliary lemmas carry no claim marker.
-/

/-- Claim C9: when neither a text solid nor a border frame exists,
generate_sign returns an absent detail piece together with the unmodified
plate (no subtraction is applied); and the border frame is absent whenever
the border style is "none" or the border width is non-positive. -/
theorem generate_sign_plain_plate (plate : Set P3) (p : SignParams)
    (primary : Option BorderFrame)
    (hb : p.border_style = "none" ∨ p.border_width ≤ 0) :
    generate_sign plate none none = (none, plate) ∧
    create_border_frame p primary = none := by
  constructor
  · rfl
  · unfold create_border_frame
    rw [if_pos hb]

/-- Witness for claim C9 at a concrete plate and a configuration with border
style "none". -/
theorem generate_sign_plain_plate_witness :
    generate_sign cexPlate none none = (none, cexPlate) ∧
    create_border_frame noBorderParams none = none :=
  generate_sign_plain_plate cexPlate noBorderParams none (Or.inl rfl)

/-- Claim C10: an explicit per-line size list is honored exactly when it is
non-empty and its length equals the number of text lines; otherwise the
automatic uniform sizing is used instead. -/
theorem choose_sizes_explicit_iff (p : SignParams) (l : List ℚ)
    (hl : p.sizes = some l) :
    (l ≠ [] ∧ l.length = (get_line_texts p).length → choose_sizes p = l) ∧
    (l = [] ∨ l.length ≠ (get_line_texts p).length →
      choose_sizes p = auto_font_sizes p) := by
  have hcs : choose_sizes p =
      if l ≠ [] ∧ l.length = (get_line_texts p).length then l
      else auto_font_sizes p := by
    rw [choose_sizes, hl]
  constructor
  · intro h
    rw [hcs, if_pos h]
  · intro h
    rw [hcs, if_neg]
    rintro ⟨h1, h2⟩
    rcases h with h | h
    · exact h1 h
    · exact h h2

/-- Witness for claim C10: a matching two-element size list for a two-line
configuration is honored verbatim. -/
theorem choose_sizes_explicit_iff_witness :
    choose_sizes explicitSizesParams = [3, 4] :=
  (choose_sizes_explicit_iff explicitSizesParams [3, 4] rfl).1
    ⟨by simp, rfl⟩

/-- Claim C8: when the constant-distance offset computation raises an
exception (primary outcome none), the border frame is rebuilt by the
dimension-based fallback for every style: the outer curve uses the
dimensions shrunk by twice the border offset with the radius reduced by the
border offset floored at zero, the inner curve is further shrunk by twice
the border width with the radius further reduced floored at zero; the
fallback returns no frame exactly when an outer dimension is non-positive,
and a collapsed outer-only frame when only an inner dimension is
non-positive. -/
theorem create_border_frame_fallback_spec (p : SignParams)
    (hstyle : p.border_style ≠ "none") (hbw : 0 < p.border_width) :
    create_border_frame p none = border_frame_fallback p ∧
    (border_frame_fallback p = none ↔
      p.width - 2 * p.border_offset ≤ 0 ∨
      p.height - 2 * p.border_offset ≤ 0) ∧
    (0 < p.width - 2 * p.border_offset →
     0 < p.height - 2 * p.border_offset →
     (p.width - 2 * p.border_offset - 2 * p.border_width ≤ 0 ∨
      p.height - 2 * p.border_offset - 2 * p.border_width ≤ 0) →
      border_frame_fallback p = some (BorderFrame.single
        (create_outline_solid (p.width - 2 * p.border_offset)
          (p.height - 2 * p.border_offset)
          (max 0 (p.corner_radius - p.border_offset))
          p.border_style p.text_depth))) ∧
    (0 < p.width - 2 * p.border_offset - 2 * p.border_width →
     0 < p.height - 2 * p.border_offset - 2 * p.border_width →
      border_frame_fallback p = some (BorderFrame.ring
        (create_outline_solid (p.width - 2 * p.border_offset)
          (p.height - 2 * p.border_offset)
          (max 0 (p.corner_radius - p.border_offset))
          p.border_style p.text_depth)
        (create_outline_solid
          (p.width - 2 * p.border_offset - 2 * p.border_width)
          (p.height - 2 * p.border_offset - 2 * p.border_width)
          (max 0 (max 0 (p.corner_radius - p.border_offset) - p.border_width))
          p.border_style p.text_depth))) := by
  refine ⟨?_, ?_, ?_, ?_⟩
  · simp only [create_border_frame]
    rw [if_neg, if_neg]
    · rintro ⟨-, h2⟩
      exact absurd h2 (not_le.mpr hbw)
    · rintro (h1 | h2)
      · exact hstyle h1
      · exact absurd h2 (not_le.mpr hbw)
  · simp only [border_frame_fallback]
    split_ifs with h1 h2
    · simpa using h1
    · simp only [Option.some_ne_none, false_iff]
      exact h1
    · simp only [Option.some_ne_none, false_iff]
      exact h1
  · intro hw hh hi
    simp only [border_frame_fallback]
    rw [if_neg, if_pos hi]
    rintro (h | h)
    · exact absurd hw (not_lt.mpr h)
    · exact absurd hh (not_lt.mpr h)
  · intro hw hh
    have hw0 : 0 < p.width - 2 * p.border_offset := by linarith
    have hh0 : 0 < p.height - 2 * p.border_offset := by linarith
    simp only [border_frame_fallback]
    rw [if_neg, if_neg]
    · rintro (h | h)
      · exact absurd hw (not_lt.mpr h)
      · exact absurd hh (not_lt.mpr h)
    · rintro (h | h)
      · exact absurd hw0 (not_lt.mpr h)
      · exact absurd hh0 (not_lt.mpr h)

/-- Witness for claim C8 at the default configuration: the fallback produces
the nested ring frame with the shrunken dimensions and reduced radii. -/
theorem create_border_frame_fallback_spec_witness :
    create_border_frame defaultParams none = border_frame_fallback defaultParams ∧
    border_frame_fallback defaultParams = some (BorderFrame.ring
      (create_outline_solid 168 108 6 "concave" (3 / 5))
      (create_outline_solid 164 104 4 "concave" (3 / 5))) := by
  have h := create_border_frame_fallback_spec defaultParams (by decide) (by norm_num [defaultParams])
  refine ⟨h.1, ?_⟩
  have h4 := h.2.2.2 (by norm_num [defaultParams]) (by norm_num [defaultParams])
  rw [h4]
  norm_num [defaultParams]

/-- Claim C7 (amended): for every width, height and requested radius the
clamped corner radius is never negative, and whenever it falls below the 0.1
threshold both styled outline builders return the plain rectangle; the
clamped radius never exceeds min(requested, width/2 - 0.1, height/2 - 0.1)
whenever that bound is non-negative (for a width or height below 0.2, or a
negative request, the bound is negative and the clamp floors the result at 0
instead, which is what the counterexample forces). -/
theorem clamp_radius_spec (r w h : ℚ) :
    0 ≤ clamp_radius r w h ∧
    (0 ≤ min r (min (w / 2 - 1 / 10) (h / 2 - 1 / 10)) →
      clamp_radius r w h ≤ min r (min (w / 2 - 1 / 10) (h / 2 - 1 / 10))) ∧
    (clamp_radius r w h < 1 / 10 →
      create_concave_wire w h r = Wire.rect w h ∧
      create_rounded_wire w h r = Wire.rect w h) := by
  refine ⟨le_max_left 0 _, ?_, ?_⟩
  · intro hnn
    exact (max_eq_right hnn).le
  · intro hlt
    constructor
    · unfold create_concave_wire
      rw [if_pos hlt]
    · unfold create_rounded_wire
      rw [if_pos hlt]

/-- Witness for claim C7 at the representative case width 40, height 20,
requested radius 100: the effective radius is non-negative and stays at or
below min(40/2 - 0.1, 20/2 - 0.1), the bound being non-negative there. -/
theorem clamp_radius_spec_witness :
    0 ≤ clamp_radius 100 40 20 ∧
    clamp_radius 100 40 20 ≤
      min 100 (min (40 / 2 - 1 / 10) (20 / 2 - 1 / 10)) := by
  have h := clamp_radius_spec 100 40 20
  exact ⟨h.1, h.2.1 (by norm_num [min_def])⟩

/-- Counterexample to claim C7 as stated: for width 0.1, height 20 and
requested radius 5 the bound min(5, 0.1/2 - 0.1, 20/2 - 0.1) is negative and
the clamped radius 0 exceeds it. -/
theorem clamp_radius_exceeds_cex :
    clamp_radius 5 (1 / 10) 20 = 0 ∧
    ¬ clamp_radius 5 (1 / 10) 20 ≤
        min 5 (min ((1 / 10) / 2 - 1 / 10) (20 / 2 - 1 / 10)) := by
  constructor
  · norm_num [clamp_radius, min_def, max_def]
  · norm_num [clamp_radius, min_def, max_def]

theorem calc_gaps_replicate (s ls : ℚ) :
    ∀ d : List (String × ℚ), (∀ q ∈ d, q.2 = s) →
      calc_gaps d ls = List.replicate (d.length - 1) (s * ls)
  | [], _ => rfl
  | [_], _ => rfl
  | a :: b :: rest, h => by
    have ha : a.2 = s := h a (by simp)
    have hb : b.2 = s := h b (by simp)
    have ih := calc_gaps_replicate s ls (b :: rest)
      (fun q hq => h q (List.mem_cons_of_mem a hq))
    simp only [calc_gaps, ih, ha, hb, List.length_cons, Nat.add_sub_cancel,
      List.replicate]
    rw [show (s / 2 + s / 2) * ls = s * ls by ring]

theorem stack_positions_replicate_sum (g : ℚ) :
    ∀ (k : ℕ) (y0 : ℚ),
      (stack_positions y0 (List.replicate k g)).sum =
        ((k : ℚ) + 1) * y0 - ((k : ℚ) * ((k : ℚ) + 1) / 2) * g
  | 0, y0 => by simp [stack_positions]
  | k + 1, y0 => by
    have ih := stack_positions_replicate_sum g k (y0 - g)
    simp only [List.replicate_succ, stack_positions, List.sum_cons, ih]
    push_cast
    ring

/-- Claim C3 (amended): when all lines share one font size (in particular
for auto-sized configurations), the vertical centers computed by
_calc_line_positions sum to 0, and for a single line the center is exactly
0.  For distinct per-line sizes and three or more lines the equal-weight sum
can be nonzero. -/
theorem calc_line_positions_sum_zero (line_data : List (String × ℚ))
    (ls s : ℚ) (h : ∀ q ∈ line_data, q.2 = s) :
    (calc_line_positions line_data ls).sum = 0 ∧
    (line_data.length = 1 → calc_line_positions line_data ls = [0]) := by
  match line_data with
  | [] => exact ⟨rfl, by simp⟩
  | [a] => exact ⟨by simp [calc_line_positions], fun _ => rfl⟩
  | a :: b :: rest =>
    refine ⟨?_, by simp⟩
    have hg := calc_gaps_replicate s ls (a :: b :: rest) h
    show (stack_positions ((calc_gaps (a :: b :: rest) ls).sum / 2)
        (calc_gaps (a :: b :: rest) ls)).sum = 0
    rw [hg]
    simp only [List.length_cons, Nat.add_sub_cancel]
    rw [List.sum_replicate, stack_positions_replicate_sum, nsmul_eq_mul]
    push_cast
    ring

/-- Witness for claim C3: two lines of size 2 at spacing 1 have centers
summing to 0. -/
theorem calc_line_positions_sum_zero_witness :
    (calc_line_positions [("x", 2), ("y", 2)] 1).sum = 0 ∧
    ([("x", (2 : ℚ)), ("y", 2)].length = 1 →
      calc_line_positions [("x", 2), ("y", 2)] 1 = [0]) :=
  calc_line_positions_sum_zero [("x", 2), ("y", 2)] 1 2 (by simp)

/-- Counterexample to claim C3 as stated: for three lines with per-line sizes
1, 1, 3 at spacing 1 the centers are 3/2, 1/2, -3/2, whose equal-weight sum
is 1/2, not 0. -/
theorem calc_line_positions_sum_ne_zero_cex :
    (calc_line_positions [("a", 1), ("b", 1), ("c", 3)] 1).sum ≠ 0 := by
  norm_num [calc_line_positions, calc_gaps, stack_positions]

theorem string_length_pos (s : String) (h : s ≠ "") : 0 < s.length := by
  cases s with
  | mk data =>
    cases data with
    | nil => exact absurd rfl h
    | cons c cs => simp [String.length]

theorem foldl_cap_step_le_init (aw : ℚ) :
    ∀ (l : List String) (a : ℚ), l.foldl (cap_step aw) a ≤ a
  | [], a => le_refl a
  | x :: xs, a => by
    have h1 : cap_step aw a x ≤ a := by
      unfold cap_step
      split_ifs
      · exact le_refl a
      · exact min_le_left _ _
    exact le_trans (foldl_cap_step_le_init aw xs (cap_step aw a x)) h1

theorem foldl_cap_step_le_cap (aw : ℚ) :
    ∀ (l : List String) (a : ℚ) (x : String), x ∈ l → strip x ≠ "" →
      l.foldl (cap_step aw) a ≤ width_cap aw x
  | [], _, x, hx, _ => absurd hx (List.not_mem_nil x)
  | y :: ys, a, x, hx, hxe => by
    rcases List.mem_cons.mp hx with rfl | hx'
    · refine le_trans (foldl_cap_step_le_init aw ys _) ?_
      unfold cap_step
      rw [if_neg hxe]
      exact min_le_right _ _
    · exact foldl_cap_step_le_cap aw ys (cap_step aw a y) x hx' hxe

theorem le_foldl_cap_step (aw : ℚ) :
    ∀ (l : List String) (a v : ℚ), v ≤ a →
      (∀ x ∈ l, strip x ≠ "" → v ≤ width_cap aw x) →
      v ≤ l.foldl (cap_step aw) a
  | [], _, _, hv, _ => hv
  | y :: ys, a, v, hv, hcaps => by
    apply le_foldl_cap_step aw ys (cap_step aw a y) v
    · unfold cap_step
      split_ifs with hy
      · exact hv
      · exact le_min hv (hcaps y (by simp) hy)
    · exact fun x hx hxe => hcaps x (List.mem_cons_of_mem y hx) hxe

theorem foldl_cap_step_mono (aw : ℚ) :
    ∀ (l : List String) {a b : ℚ}, a ≤ b →
      l.foldl (cap_step aw) a ≤ l.foldl (cap_step aw) b
  | [], _, _, hab => hab
  | y :: ys, a, b, hab => by
    apply foldl_cap_step_mono aw ys
    unfold cap_step
    split_ifs
    · exact hab
    · exact min_le_min hab (le_refl _)

/-- Claim C4 (amended): for a configuration with at least one non-empty line,
positive available space and a positive stack denominator
1 + (n_text - 1) * line_spacing (automatic whenever the spacing is
non-negative), auto sizing returns one uniform size for every line, and that
size is the largest value that both fits the vertical stack in the available
height and keeps every line's estimated width within the available width. -/
theorem auto_font_sizes_greatest (p : SignParams)
    (hne : n_text p ≠ 0) (hw : 0 < available_w p) (hh : 0 < available_h p)
    (hden : 0 < size_denom p) :
    ∃ u, auto_font_sizes p = List.replicate (get_line_texts p).length u ∧
      fitsSpec p u ∧ ∀ v, fitsSpec p v → v ≤ u := by
  refine ⟨uniform_size p, ?_, ⟨?_, ?_⟩, ?_⟩
  · unfold auto_font_sizes
    rw [if_neg, if_neg hne, if_neg]
    · rintro (h | h)
      · exact absurd hw (not_lt.mpr h)
      · exact absurd hh (not_lt.mpr h)
    · intro h0
      apply hne
      unfold n_text non_empty_lines
      rw [List.length_eq_zero] at h0
      rw [h0]
      rfl
  · have h1 : uniform_size p ≤ available_h p / size_denom p :=
      foldl_cap_step_le_init _ _ _
    calc uniform_size p * size_denom p
        ≤ (available_h p / size_denom p) * size_denom p :=
          mul_le_mul_of_nonneg_right h1 hden.le
      _ = available_h p := div_mul_cancel₀ _ (ne_of_gt hden)
  · intro l hl hle
    have hcap : uniform_size p ≤ width_cap (available_w p) l :=
      foldl_cap_step_le_cap _ _ _ l hl hle
    have hpos : 0 < ((strip l).length : ℚ) * CHAR_WIDTH_RATIO := by
      apply mul_pos
      · exact_mod_cast string_length_pos (strip l) hle
      · norm_num [ CHAR_WIDTH_RATIO]
    rw [width_cap] at hcap
    have h2 := (le_div_iff₀ hpos).mp hcap
    calc (((strip l).length : ℚ) * CHAR_WIDTH_RATIO) * uniform_size p
        = uniform_size p * (((strip l).length : ℚ) * CHAR_WIDTH_RATIO) := by
          ring
      _ ≤ available_w p := h2
  · rintro v ⟨hv1, hv2⟩
    apply le_foldl_cap_step
    · rw [base_size]
      exact (le_div_iff₀ hden).mpr hv1
    · intro x hx hxe
      have hpos : 0 < ((strip x).length : ℚ) * CHAR_WIDTH_RATIO := by
        apply mul_pos
        · exact_mod_cast string_length_pos (strip x) hxe
        · norm_num [ CHAR_WIDTH_RATIO]
      rw [width_cap, le_div_iff₀ hpos]
      calc v * (((strip x).length : ℚ) * CHAR_WIDTH_RATIO)
          = (((strip x).length : ℚ) * CHAR_WIDTH_RATIO) * v := by ring
        _ ≤ available_w p := hv2 x hx hxe

/-- Witness for claim C4 at a two-line configuration with default
dimensions. -/
theorem auto_font_sizes_greatest_witness :
    n_text abcdParams ≠ 0 ∧
    (∃ u, auto_font_sizes abcdParams =
        List.replicate (get_line_texts abcdParams).length u ∧
      fitsSpec abcdParams u ∧ ∀ v, fitsSpec abcdParams v → v ≤ u) := by
  have hnt : n_text abcdParams = 2 := by decide
  have hpad : sign_padding abcdParams = 11 := by
    rw [sign_padding, if_pos ⟨by decide, by norm_num [abcdParams]⟩]
    norm_num [abcdParams]
  refine ⟨by decide, auto_font_sizes_greatest abcdParams (by decide) ?_ ?_ ?_⟩
  · rw [available_w, hpad]
    norm_num [abcdParams]
  · rw [available_h, hpad]
    norm_num [abcdParams]
  · rw [size_denom, hnt]
    norm_num [abcdParams]

/-- Counterexample to claim C4 as stated: with two lines at line spacing -5
(reachable from the command line interface) auto sizing returns -49/2 for
both lines, yet size 0 also fits, so the returned size is not the largest
simultaneously fitting value. -/
theorem auto_font_sizes_not_greatest_cex :
    ¬ ∃ u, auto_font_sizes negSpacingParams =
        List.replicate (get_line_texts negSpacingParams).length u ∧
      fitsSpec negSpacingParams u ∧
      ∀ v, fitsSpec negSpacingParams v → v ≤ u := by
  have hnt : n_text negSpacingParams = 2 := by decide
  have hpad : sign_padding negSpacingParams = 11 := by
    rw [sign_padding, if_pos ⟨by decide, by norm_num [negSpacingParams]⟩]
    norm_num [negSpacingParams]
  have haw : available_w negSpacingParams = 158 := by
    rw [available_w, hpad]
    norm_num [negSpacingParams]
  have hah : available_h negSpacingParams = 98 := by
    rw [available_h, hpad]
    norm_num [negSpacingParams]
  have hbase : base_size negSpacingParams = -49 / 2 := by
    rw [base_size, hah, size_denom, hnt]
    norm_num [negSpacingParams]
  have hlenA : ("A" : String).length = 1 := rfl
  have hlenB : ("B" : String).length = 1 := rfl
  have hstripA : strip "A" = "A" := by decide
  have hstripB : strip "B" = "B" := by decide
  have hlines : get_line_texts negSpacingParams = ["A", "B"] := rfl
  have huni : uniform_size negSpacingParams = -49 / 2 := by
    rw [uniform_size, hlines, hbase]
    simp only [List.foldl_cons, List.foldl_nil, cap_step, hstripA, hstripB,
      haw]
    rw [if_neg (by decide), if_neg (by decide)]
    norm_num [width_cap, hstripA, hstripB, hlenA, hlenB, CHAR_WIDTH_RATIO,
      min_def]
  have hval : auto_font_sizes negSpacingParams = [-49 / 2, -49 / 2] := by
    rw [auto_font_sizes]
    rw [if_neg (by decide), if_neg (by decide), if_neg, huni]
    · rfl
    · rw [haw, hah]
      norm_num
  rintro ⟨u, he, -, hmax⟩
  rw [hval] at he
  have hu : u = -49 / 2 := by
    have hlen : (get_line_texts negSpacingParams).length = 2 := rfl
    rw [hlen] at he
    simp [List.replicate] at he
    exact he.symm
  have hfit0 : fitsSpec negSpacingParams 0 := by
    constructor
    · rw [hah]
      norm_num
    · intro l hl hle
      rw [haw]
      norm_num
  have hcontra := hmax 0 hfit0
  rw [hu] at hcontra
  norm_num at hcontra

theorem auto_font_sizes_line_spacing (p : SignParams) (s : ℚ) :
    auto_font_sizes { p with line_spacing := s } =
      if (get_line_texts p).length = 0 then []
      else if n_text p = 0 then List.replicate (get_line_texts p).length 10
      else if available_w p ≤ 0 ∨ available_h p ≤ 0 then
        List.replicate (get_line_texts p).length 5
      else
        List.replicate (get_line_texts p).length
          ((get_line_texts p).foldl (cap_step (available_w p))
            (available_h p / (1 + ((n_text p : ℚ) - 1) * s))) := rfl

/-- Claim C6 (amended): auto sizing is idempotent — feeding its own result
back through the explicit sizes field leaves the output unchanged — and,
provided the stack denominator 1 + (n_text - 1) * s1 is positive (automatic
for non-negative spacing), increasing the line spacing never increases the
returned uniform size. -/
theorem auto_font_sizes_idem_mono (p : SignParams) (s1 s2 : ℚ)
    (h12 : s1 ≤ s2) (hden : 0 < 1 + ((n_text p : ℚ) - 1) * s1) :
    auto_font_sizes { p with sizes := some (auto_font_sizes p) } =
      auto_font_sizes p ∧
    ∀ u2 ∈ auto_font_sizes { p with line_spacing := s2 },
      ∀ u1 ∈ auto_font_sizes { p with line_spacing := s1 }, u2 ≤ u1 := by
  constructor
  · rfl
  · intro u2 hu2 u1 hu1
    rw [auto_font_sizes_line_spacing] at hu2 hu1
    split_ifs at hu2 hu1 with h0 h1 h2
    · exact absurd hu2 (List.not_mem_nil u2)
    · rw [List.eq_of_mem_replicate hu2, List.eq_of_mem_replicate hu1]
    · rw [List.eq_of_mem_replicate hu2, List.eq_of_mem_replicate hu1]
    · rw [List.eq_of_mem_replicate hu2, List.eq_of_mem_replicate hu1]
      apply foldl_cap_step_mono
      have hah : 0 < available_h p := by
        rcases not_or.mp h2 with ⟨-, hh⟩
        exact not_le.mp hh
      have hnt : 1 ≤ (n_text p : ℚ) := by
        exact_mod_cast Nat.one_le_iff_ne_zero.mpr h1
      have hmul : ((n_text p : ℚ) - 1) * s1 ≤ ((n_text p : ℚ) - 1) * s2 :=
        mul_le_mul_of_nonneg_left h12 (by linarith)
      have hden2 : 0 < 1 + ((n_text p : ℚ) - 1) * s2 := by linarith
      exact (div_le_div_iff_of_pos_left hah hden2 hden).mpr (by linarith)

/-- Witness for claim C6 at a two-line configuration, spacings 1 ≤ 2. -/
theorem auto_font_sizes_idem_mono_witness :
    auto_font_sizes { abcdParams with
        sizes := some (auto_font_sizes abcdParams) } =
      auto_font_sizes abcdParams ∧
    ∀ u2 ∈ auto_font_sizes { abcdParams with line_spacing := 2 },
      ∀ u1 ∈ auto_font_sizes { abcdParams with line_spacing := 1 },
        u2 ≤ u1 := by
  have hnt : n_text abcdParams = 2 := by decide
  exact auto_font_sizes_idem_mono abcdParams 1 2 (by norm_num)
    (by rw [hnt]; norm_num)

/-- Counterexample to claim C6 as stated: with two lines and spacings
-2 ≤ 1 (negative spacing reachable from the command line interface), the
uniform size at the larger spacing is 49 while at the smaller spacing it is
-98, so increasing the spacing increased the returned size. -/
theorem auto_font_sizes_mono_cex :
    (-2 : ℚ) ≤ 1 ∧
    ¬ ∀ u2 ∈ auto_font_sizes { twoLineParams with line_spacing := 1 },
        ∀ u1 ∈ auto_font_sizes { twoLineParams with line_spacing := -2 },
          u2 ≤ u1 := by
  refine ⟨by norm_num, ?_⟩
  have hnt : n_text twoLineParams = 2 := by decide
  have hpad : sign_padding twoLineParams = 11 := by
    rw [sign_padding, if_pos ⟨by decide, by norm_num [twoLineParams]⟩]
    norm_num [twoLineParams]
  have haw : available_w twoLineParams = 158 := by
    rw [available_w, hpad]
    norm_num [twoLineParams]
  have hah : available_h twoLineParams = 98 := by
    rw [available_h, hpad]
    norm_num [twoLineParams]
  have hlenA : ("A" : String).length = 1 := rfl
  have hlenB : ("B" : String).length = 1 := rfl
  have hstripA : strip "A" = "A" := by decide
  have hstripB : strip "B" = "B" := by decide
  have h2 : auto_font_sizes { twoLineParams with line_spacing := 1 } =
      [49, 49] := by
    rw [auto_font_sizes_line_spacing]
    rw [if_neg (by decide), if_neg (by decide), if_neg]
    · have hfold : (get_line_texts twoLineParams).foldl
          (cap_step (available_w twoLineParams))
          (available_h twoLineParams /
            (1 + ((n_text twoLineParams : ℚ) - 1) * 1)) = 49 := by
        have hbase : available_h twoLineParams /
            (1 + ((n_text twoLineParams : ℚ) - 1) * 1) = 49 := by
          rw [hah, hnt]
          norm_num
        rw [show get_line_texts twoLineParams = ["A", "B"] from rfl, hbase]
        simp only [List.foldl_cons, List.foldl_nil, cap_step, hstripA,
          hstripB, haw]
        rw [if_neg (by decide), if_neg (by decide)]
        norm_num [width_cap, hstripA, hstripB, hlenA, hlenB, CHAR_WIDTH_RATIO,
          min_def]
      rw [hfold]
      rfl
    · rw [haw, hah]
      norm_num
  have h1 : auto_font_sizes { twoLineParams with line_spacing := -2 } =
      [-98, -98] := by
    rw [auto_font_sizes_line_spacing]
    rw [if_neg (by decide), if_neg (by decide), if_neg]
    · have hfold : (get_line_texts twoLineParams).foldl
          (cap_step (available_w twoLineParams))
          (available_h twoLineParams /
            (1 + ((n_text twoLineParams : ℚ) - 1) * (-2))) = -98 := by
        have hbase : available_h twoLineParams /
            (1 + ((n_text twoLineParams : ℚ) - 1) * (-2)) = -98 := by
          rw [hah, hnt]
          norm_num
        rw [show get_line_texts twoLineParams = ["A", "B"] from rfl, hbase]
        simp only [List.foldl_cons, List.foldl_nil, cap_step, hstripA,
          hstripB, haw]
        rw [if_neg (by decide), if_neg (by decide)]
        norm_num [width_cap, hstripA, hstripB, hlenA, hlenB, CHAR_WIDTH_RATIO,
          min_def]
      rw [hfold]
      rfl
    · rw [haw, hah]
      norm_num
  intro hmono
  have := hmono 49 (by rw [h2]; simp) (-98) (by rw [h1]; simp)
  norm_num at this

/-- Claim C1 (amended): whenever generate_sign produces a detail piece and
that mirrored detail piece is contained in the plate solid, the union of the
detail piece and the resulting base piece is exactly the plate and their
intersection is empty; the base piece is the plate minus the mirrored detail
piece by construction. -/
theorem generate_sign_partition (plate : Set P3)
    (text border : Option (Set P3)) (d w : Set P3)
    (hgen : generate_sign plate text border = (some d, w))
    (hsub : d ⊆ plate) :
    d ∪ w = plate ∧ d ∩ w = ∅ := by
  have key : ∀ black : Set P3,
      (some (mirrorYZ black), plate \ mirrorYZ black) =
        ((some d : Option (Set P3)), w) →
      d ∪ w = plate ∧ d ∩ w = ∅ := by
    intro black h
    rw [Prod.mk.injEq, Option.some.injEq] at h
    obtain ⟨h1, h2⟩ := h
    subst h1
    subst h2
    exact ⟨Set.union_diff_cancel hsub, Set.inter_diff_self _ _⟩
  cases text with
  | some t =>
    cases border with
    | some b => exact key (t ∪ b) hgen
    | none => exact key t hgen
  | none =>
    cases border with
    | some b => exact key b hgen
    | none => exact Option.noConfusion (congrArg Prod.fst hgen)

/-- Witness for claim C1: a small symmetric text solid wholly inside the
40 by 20 by 3 plate splits it exactly into detail and base. -/
theorem generate_sign_partition_witness :
    mirrorYZ smallText ∪ (cexPlate \ mirrorYZ smallText) = cexPlate ∧
    mirrorYZ smallText ∩ (cexPlate \ mirrorYZ smallText) = ∅ := by
  apply generate_sign_partition cexPlate (some smallText) none
  · rfl
  · intro q hq
    simp only [mirrorYZ, smallText, cexPlate, outline_solid_none, extrudeSet,
      rectAt, Set.mem_setOf_eq, sub_zero, abs_neg] at hq ⊢
    obtain ⟨⟨hx, hy⟩, hz0, hz1⟩ := hq
    refine ⟨⟨by linarith [hx], by linarith [hy]⟩, hz0, by linarith [hz1]⟩

/-- Counterexample to claim C1 as stated: for the configuration
lines = ["AA"], sizes = [1000], underline enabled, border style "none",
width 40, height 20, the detail piece contains the line's underline
rectangle, reaching 350 mm below the plate center, so the union of detail
and base differs from the plate far beyond any fixed numerical tolerance.
External glyph solids only enlarge the detail piece and cannot restore the
equality. -/
theorem generate_sign_partition_cex :
    generate_sign cexPlate (some cexText) none =
      (some (mirrorYZ cexText), cexPlate \ mirrorYZ cexText) ∧
    ¬ (mirrorYZ cexText ∪ (cexPlate \ mirrorYZ cexText) = cexPlate ∧
       mirrorYZ cexText ∩ (cexPlate \ mirrorYZ cexText) = ∅) := by
  refine ⟨rfl, ?_⟩
  rintro ⟨hunion, -⟩
  have hmem : ((0 : ℝ), (-350 : ℝ), (3 / 10 : ℝ)) ∈
      mirrorYZ cexText ∪ (cexPlate \ mirrorYZ cexText) := by
    left
    simp only [mirrorYZ, cexText, underline_solid, extrudeSet, rectAt,
      Set.mem_setOf_eq]
    norm_num
  rw [hunion] at hmem
  simp only [cexPlate, outline_solid_none, extrudeSet, rectAt,
    Set.mem_setOf_eq, sub_zero] at hmem
  obtain ⟨⟨-, hy⟩, -⟩ := hmem
  rw [abs_le] at hy
  obtain ⟨hy1, -⟩ := hy
  norm_num at hy1

/-- Claim C2: for the concave style with offset d with 0 ≤ d, d < R = r + d,
d below both half extents and both edges of positive length (s < hw and
s < hh for s = sqrt(R^2 - d^2)), the offset path is the concave offset curve
whose junction points lie at distance s along one axis and d along the other
from a plate corner and at Euclidean distance R from that corner, and whose
four straight edges have lengths width - 2s, height - 2s, width - 2s,
height - 2s (the original side lengths shortened by s at each end). -/
theorem concave_offset_junctions (hw hh r d : ℝ) (hd0 : 0 ≤ d)
    (hR : d < r + d) (hdw : d < hw) (hdh : d < hh)
    (hsw : offsetS r d < hw) (hsh : offsetS r d < hh) :
    buildOffsetConcavePath hw hh r d =
      OffsetResult.path (concaveJunctions hw hh d (offsetS r d)) ∧
    (∀ q ∈ concaveJunctions hw hh d (offsetS r d),
      ∃ c ∈ plateCorners hw hh,
        ((|q.1 - c.1| = offsetS r d ∧ |q.2 - c.2| = d) ∨
         (|q.1 - c.1| = d ∧ |q.2 - c.2| = offsetS r d)) ∧
        Real.sqrt ((q.1 - c.1) ^ 2 + (q.2 - c.2) ^ 2) = r + d) ∧
    (junctionEdges (concaveJunctions hw hh d (offsetS r d))).map segLength =
      [2 * hw - 2 * offsetS r d, 2 * hh - 2 * offsetS r d,
       2 * hw - 2 * offsetS r d, 2 * hh - 2 * offsetS r d] := by
  have hRpos : 0 < r + d := lt_of_le_of_lt hd0 hR
  have hs0 : 0 ≤ offsetS r d := Real.sqrt_nonneg _
  have hss : offsetS r d * offsetS r d + d * d = (r + d) * (r + d) := by
    have hnn : 0 ≤ (r + d) * (r + d) - d * d := by nlinarith
    have := Real.mul_self_sqrt hnn
    rw [offsetS]
    linarith [this]
  set s := offsetS r d with hs_def
  refine ⟨?_, ?_, ?_⟩
  · simp only [buildOffsetConcavePath]
    rw [show Real.sqrt ((r + d) * (r + d) - d * d) = s from rfl]
    rw [if_neg (by push_neg; exact ⟨hdw, hdh, hRpos⟩),
        if_neg (not_le.mpr hR),
        if_neg (by push_neg; exact ⟨hsw, hsh⟩)]
  · intro q hq
    simp only [concaveJunctions, List.mem_cons, List.not_mem_nil,
      or_false] at hq
    rcases hq with rfl | rfl | rfl | rfl | rfl | rfl | rfl | rfl
    · refine ⟨(-hw, -hh), by simp [plateCorners], Or.inl ⟨?_, ?_⟩, ?_⟩
      · rw [show (-hw + s) - (-hw) = s from by ring]
        exact abs_of_nonneg hs0
      · rw [show (-hh + d) - (-hh) = d from by ring]
        exact abs_of_nonneg hd0
      · rw [show ((-hw + s) - (-hw)) ^ 2 + ((-hh + d) - (-hh)) ^ 2 =
            (r + d) ^ 2 from by linear_combination hss]
        exact Real.sqrt_sq hRpos.le
    · refine ⟨(hw, -hh), by simp [plateCorners], Or.inl ⟨?_, ?_⟩, ?_⟩
      · rw [show (hw - s) - hw = -s from by ring, abs_neg]
        exact abs_of_nonneg hs0
      · rw [show (-hh + d) - (-hh) = d from by ring]
        exact abs_of_nonneg hd0
      · rw [show ((hw - s) - hw) ^ 2 + ((-hh + d) - (-hh)) ^ 2 =
            (r + d) ^ 2 from by linear_combination hss]
        exact Real.sqrt_sq hRpos.le
    · refine ⟨(hw, -hh), by simp [plateCorners], Or.inr ⟨?_, ?_⟩, ?_⟩
      · rw [show (hw - d) - hw = -d from by ring, abs_neg]
        exact abs_of_nonneg hd0
      · rw [show (-hh + s) - (-hh) = s from by ring]
        exact abs_of_nonneg hs0
      · rw [show ((hw - d) - hw) ^ 2 + ((-hh + s) - (-hh)) ^ 2 =
            (r + d) ^ 2 from by linear_combination hss]
        exact Real.sqrt_sq hRpos.le
    · refine ⟨(hw, hh), by simp [plateCorners], Or.inr ⟨?_, ?_⟩, ?_⟩
      · rw [show (hw - d) - hw = -d from by ring, abs_neg]
        exact abs_of_nonneg hd0
      · rw [show (hh - s) - hh = -s from by ring, abs_neg]
        exact abs_of_nonneg hs0
      · rw [show ((hw - d) - hw) ^ 2 + ((hh - s) - hh) ^ 2 =
            (r + d) ^ 2 from by linear_combination hss]
        exact Real.sqrt_sq hRpos.le
    · refine ⟨(hw, hh), by simp [plateCorners], Or.inl ⟨?_, ?_⟩, ?_⟩
      · rw [show (hw - s) - hw = -s from by ring, abs_neg]
        exact abs_of_nonneg hs0
      · rw [show (hh - d) - hh = -d from by ring, abs_neg]
        exact abs_of_nonneg hd0
      · rw [show ((hw - s) - hw) ^ 2 + ((hh - d) - hh) ^ 2 =
            (r + d) ^ 2 from by linear_combination hss]
        exact Real.sqrt_sq hRpos.le
    · refine ⟨(-hw, hh), by simp [plateCorners], Or.inl ⟨?_, ?_⟩, ?_⟩
      · rw [show (-hw + s) - (-hw) = s from by ring]
        exact abs_of_nonneg hs0
      · rw [show (hh - d) - hh = -d from by ring, abs_neg]
        exact abs_of_nonneg hd0
      · rw [show ((-hw + s) - (-hw)) ^ 2 + ((hh - d) - hh) ^ 2 =
            (r + d) ^ 2 from by linear_combination hss]
        exact Real.sqrt_sq hRpos.le
    · refine ⟨(-hw, hh), by simp [plateCorners], Or.inr ⟨?_, ?_⟩, ?_⟩
      · rw [show (-hw + d) - (-hw) = d from by ring]
        exact abs_of_nonneg hd0
      · rw [show (hh - s) - hh = -s from by ring, abs_neg]
        exact abs_of_nonneg hs0
      · rw [show ((-hw + d) - (-hw)) ^ 2 + ((hh - s) - hh) ^ 2 =
            (r + d) ^ 2 from by linear_combination hss]
        exact Real.sqrt_sq hRpos.le
    · refine ⟨(-hw, -hh), by simp [plateCorners], Or.inr ⟨?_, ?_⟩, ?_⟩
      · rw [show (-hw + d) - (-hw) = d from by ring]
        exact abs_of_nonneg hd0
      · rw [show (-hh + s) - (-hh) = s from by ring]
        exact abs_of_nonneg hs0
      · rw [show ((-hw + d) - (-hw)) ^ 2 + ((-hh + s) - (-hh)) ^ 2 =
            (r + d) ^ 2 from by linear_combination hss]
        exact Real.sqrt_sq hRpos.le
  · simp only [concaveJunctions, junctionEdges, segLength, List.map,
      List.cons.injEq, and_true]
    refine ⟨?_, ?_, ?_, ?_⟩
    · rw [show ((hw - s) - (-hw + s)) ^ 2 + ((-hh + d) - (-hh + d)) ^ 2 =
          (2 * hw - 2 * s) ^ 2 from by ring]
      exact Real.sqrt_sq (by linarith)
    · rw [show ((hw - d) - (hw - d)) ^ 2 + ((hh - s) - (-hh + s)) ^ 2 =
          (2 * hh - 2 * s) ^ 2 from by ring]
      exact Real.sqrt_sq (by linarith)
    · rw [show ((-hw + s) - (hw - s)) ^ 2 + ((hh - d) - (hh - d)) ^ 2 =
          (2 * hw - 2 * s) ^ 2 from by ring]
      exact Real.sqrt_sq (by linarith)
    · rw [show ((-hw + d) - (-hw + d)) ^ 2 + ((-hh + s) - (hh - s)) ^ 2 =
          (2 * hh - 2 * s) ^ 2 from by ring]
      exact Real.sqrt_sq (by linarith)

/-- Witness for claim C2 at the representative case width 180, height 120,
radius 12, offset 6: R = 18, s = sqrt 288 with 16.9 < s < 17, and the edge
lengths are 180 - 2s and 120 - 2s. -/
theorem concave_offset_junctions_witness :
    buildOffsetConcavePath 90 60 12 6 =
      OffsetResult.path (concaveJunctions 90 60 6 (offsetS 12 6)) ∧
    (junctionEdges (concaveJunctions 90 60 6 (offsetS 12 6))).map segLength =
      [2 * 90 - 2 * offsetS 12 6, 2 * 60 - 2 * offsetS 12 6,
       2 * 90 - 2 * offsetS 12 6, 2 * 60 - 2 * offsetS 12 6] ∧
    (12 : ℝ) + 6 = 18 ∧
    (169 / 10 : ℝ) < offsetS 12 6 ∧ offsetS 12 6 < 17 := by
  have hofs : offsetS 12 6 = Real.sqrt 288 := by
    rw [offsetS, show ((12 : ℝ) + 6) * (12 + 6) - 6 * 6 = 288 from by
      norm_num]
  have hlt : offsetS 12 6 < 17 := by
    rw [hofs]
    exact (Real.sqrt_lt' (by norm_num)).mpr (by norm_num)
  have hgt : (169 / 10 : ℝ) < offsetS 12 6 := by
    rw [hofs]
    exact (Real.lt_sqrt (by norm_num)).mpr (by norm_num)
  have hsw : offsetS 12 6 < 90 := by
    rw [hofs]
    exact (Real.sqrt_lt' (by norm_num)).mpr (by norm_num)
  have hsh : offsetS 12 6 < 60 := by
    rw [hofs]
    exact (Real.sqrt_lt' (by norm_num)).mpr (by norm_num)
  have h := concave_offset_junctions 90 60 12 6 (by norm_num) (by norm_num)
    (by norm_num) (by norm_num) hsw hsh
  exact ⟨h.1, h.2.2, by norm_num, hgt, hlt⟩

/-- Claim C5 (amended): in every degenerate case of the concave offset —
d at or above R, R at most 0, a half extent at most d, or a straight edge
length going non-positive — the result is the plain inset rectangle of half
extents (hw - d, hh - d) when d is strictly below both half extents (those
half extents are then positive, a valid non-self-intersecting rectangle),
and the empty path when some half extent is at most d (the code does not
emit a negatively-sized rectangle there). -/
theorem buildOffsetConcavePath_degenerate (hw hh r d : ℝ)
    (hdeg : r + d ≤ d ∨ r + d ≤ 0 ∨ hw ≤ d ∨ hh ≤ d ∨
      hw ≤ offsetS r d ∨ hh ≤ offsetS r d) :
    (buildOffsetConcavePath hw hh r d = OffsetResult.empty ∨
     buildOffsetConcavePath hw hh r d =
       OffsetResult.rect (hw - d) (hh - d)) ∧
    (buildOffsetConcavePath hw hh r d = OffsetResult.empty ↔
      hw ≤ d ∨ hh ≤ d) ∧
    (buildOffsetConcavePath hw hh r d =
        OffsetResult.rect (hw - d) (hh - d) →
      0 < hw - d ∧ 0 < hh - d) := by
  by_cases h1 : hw ≤ d ∨ hh ≤ d
  · have hres : buildOffsetConcavePath hw hh r d = OffsetResult.empty := by
      simp only [buildOffsetConcavePath]
      rw [if_pos, if_neg]
      · rintro ⟨ha, hb⟩
        rcases h1 with h | h
        · exact absurd ha (not_lt.mpr h)
        · exact absurd hb (not_lt.mpr h)
      · rcases h1 with h | h
        · exact Or.inl h
        · exact Or.inr (Or.inl h)
    refine ⟨Or.inl hres, ?_, ?_⟩
    · rw [hres]
      exact iff_of_true rfl h1
    · rw [hres]
      intro h
      exact OffsetResult.noConfusion h
  · push_neg at h1
    obtain ⟨hdw, hdh⟩ := h1
    have hres : buildOffsetConcavePath hw hh r d =
        OffsetResult.rect (hw - d) (hh - d) := by
      simp only [buildOffsetConcavePath]
      by_cases h2 : r + d ≤ 0
      · rw [if_pos (Or.inr (Or.inr h2)), if_pos ⟨hdw, hdh⟩]
      · rw [if_neg (by push_neg; exact ⟨hdw, hdh, not_le.mp h2⟩)]
        by_cases h3 : r + d ≤ d
        · rw [if_pos h3]
        · rw [if_neg h3, if_pos]
          rcases hdeg with h | h | h | h | h | h
          · exact absurd h h3
          · exact absurd h h2
          · exact absurd h (not_le.mpr hdw)
          · exact absurd h (not_le.mpr hdh)
          · exact Or.inl h
          · exact Or.inr h
    refine ⟨Or.inr hres, ?_, ?_⟩
    · rw [hres]
      constructor
      · intro h
        exact OffsetResult.noConfusion h
      · rintro (h | h)
        · exact absurd h (not_le.mpr hdw)
        · exact absurd h (not_le.mpr hdh)
    · rw [hres]
      intro _
      exact ⟨by linarith, by linarith⟩

/-- Witness for claim C5 at half extents 90, 60, radius 12 and offset 70
(the offset exceeds the height half extent): the result is the empty path,
never a negatively-sized rectangle. -/
theorem buildOffsetConcavePath_degenerate_witness :
    (buildOffsetConcavePath 90 60 12 70 = OffsetResult.empty ∨
     buildOffsetConcavePath 90 60 12 70 =
       OffsetResult.rect (90 - 70) (60 - 70)) ∧
    (buildOffsetConcavePath 90 60 12 70 = OffsetResult.empty ↔
      (90 : ℝ) ≤ 70 ∨ (60 : ℝ) ≤ 70) ∧
    (buildOffsetConcavePath 90 60 12 70 =
        OffsetResult.rect (90 - 70) (60 - 70) →
      0 < (90 : ℝ) - 70 ∧ 0 < (60 : ℝ) - 70) :=
  buildOffsetConcavePath_degenerate 90 60 12 70
    (Or.inr (Or.inr (Or.inr (Or.inl (by norm_num)))))

/-- Counterexample to claim C5 as stated: at half extents 5, 5, radius 1 and
offset distance 6 (width/2 ≤ d) the result is the empty path, not the inset
rectangle of half extents (5 - 6, 5 - 6). -/
theorem buildOffsetConcavePath_empty_cex :
    buildOffsetConcavePath 5 5 1 6 = OffsetResult.empty ∧
    buildOffsetConcavePath 5 5 1 6 ≠ OffsetResult.rect (5 - 6) (5 - 6) := by
  have hres : buildOffsetConcavePath 5 5 1 6 = OffsetResult.empty := by
    simp only [buildOffsetConcavePath]
    rw [if_pos, if_neg]
    · rintro ⟨ha, -⟩
      norm_num at ha
    · left
      norm_num
  refine ⟨hres, ?_⟩
  rw [hres]
  intro h
  exact OffsetResult.noConfusion h

end Namesign
